import Mathlib

/-!
Verification development for the Aurigin FnO trade transformer
(`streamlit.py`).  The Python module is embedded shallowly: pure string and
date manipulation becomes Lean functions on `String`/`List Char`/`Nat`,
pandas dataframes become lists of rows (`List (List String)`) together with a
column count, and the single `raise ValueError` becomes `Except.error`.

String primitives are re-implemented by structural recursion on character
lists (rather than relying on the core `String` loops) so that every
definition evaluates inside the kernel.
-/

/-! ## String primitives (kernel-evaluable re-implementations) -/

/-- Uppercase a string, character by character (Python `str.upper` restricted
to ASCII, which is all the trade files contain). -/
def upper (s : String) : String := ⟨s.data.map Char.toUpper⟩

/-- Strip leading and trailing whitespace (Python `str.strip`). -/
def strip (s : String) : String :=
  ⟨((s.data.dropWhile Char.isWhitespace).reverse.dropWhile Char.isWhitespace).reverse⟩

/-- One fuel-driven step list for literal (non-regex) substring replacement:
Python `str.replace(old, new)` replaces non-overlapping occurrences left to
right.  The fuel starts at the length of the text, which bounds the number of
recursion steps because every step consumes at least one character. -/
def replaceLitAux (pat rep : List Char) : Nat → List Char → List Char
  | 0, cs => cs
  | _ + 1, [] => []
  | fuel + 1, c :: rest =>
    if pat ≠ [] ∧ pat.isPrefixOf (c :: rest) then
      rep ++ replaceLitAux pat rep fuel (rest.drop (pat.length - 1))
    else
      c :: replaceLitAux pat rep fuel rest

/-- Python `str.replace(old, new)` for a non-empty literal `old`. -/
def pyReplace (s pat rep : String) : String :=
  ⟨replaceLitAux pat.data rep.data s.data.length s.data⟩

/-- Python `str.startswith`. -/
def startsWithLit (s p : String) : Bool := p.data.isPrefixOf s.data

/-- Does `pat` occur as a contiguous sublist of the text? -/
def isInfixLit (pat : List Char) : List Char → Bool
  | [] => pat.isEmpty
  | c :: rest => pat.isPrefixOf (c :: rest) || isInfixLit pat rest

/-- Python `in` operator on strings (substring containment). -/
def containsSubstr (s p : String) : Bool := isInfixLit p.data s.data

/-- Split a character list on a separator character, Python `str.split(sep)`
style: always at least one (possibly empty) part. -/
def splitOnCharAux (sep : Char) : List Char → List (List Char)
  | [] => [[]]
  | c :: rest =>
    let r := splitOnCharAux sep rest
    if c == sep then
      [] :: r
    else
      match r with
      | h :: t => (c :: h) :: t
      | [] => [[c]]

/-- Interpret a non-empty all-digit character list as a natural number. -/
def digitsToNat? (cs : List Char) : Option Nat :=
  if cs ≠ [] ∧ cs.all Char.isDigit then
    some (cs.foldl (fun n c => n * 10 + (c.toNat - 48)) 0)
  else none

/-- Two-digit zero padding, as in `strftime` fields `%m`, `%d`, `%y`. -/
def pad2 (n : Nat) : String := if n < 10 then "0" ++ toString n else toString n

/-! ## Calendar model -/

/-- A calendar date (the `datetime.date` part of a Python `datetime`). -/
structure Date where
  year : Nat
  month : Nat
  day : Nat
deriving DecidableEq, BEq, Repr

/-- Gregorian leap-year rule (as used by `calendar.monthrange`). -/
def isLeap (y : Nat) : Bool := (y % 4 == 0 && y % 100 != 0) || y % 400 == 0

/-- Number of days of month `m` of year `y` (`calendar.monthrange(y, m)[1]`). -/
def daysInMonth (y m : Nat) : Nat :=
  if m = 2 then (if isLeap y then 29 else 28)
  else if m = 4 ∨ m = 6 ∨ m = 9 ∨ m = 11 then 30
  else 31

/-- Julian day number of a Gregorian date; affine in the day of the month. -/
def jdn (d : Date) : Nat :=
  let a := (14 - d.month) / 12
  let y := d.year + 4800 - a
  let m := d.month + 12 * a - 3
  d.day + (153 * m + 2) / 5 + 365 * y + y / 4 - y / 100 + y / 400 - 32045

/-- Weekday with the Python `date.weekday()` convention: Monday = 0, ...,
Thursday = 3, ..., Sunday = 6.  (`jdn % 7` happens to realise exactly that
convention: JDN 2451545 = 2000-01-01 was a Saturday and 2451545 % 7 = 5.) -/
def weekday (d : Date) : Nat := jdn d % 7

/-- Python `date` comparison `<` (lexicographic on year, month, day). -/
def dateLt (a b : Date) : Bool :=
  a.year < b.year ∨ (a.year = b.year ∧
    (a.month < b.month ∨ (a.month = b.month ∧ a.day < b.day)))

/-- Absolute difference in days between two dates,
Python `abs((a - b).days)`. -/
def dayDist (a b : Date) : Nat := Int.natAbs ((jdn a : Int) - (jdn b : Int))

/-! ## DateUtils.parse_date

`parse_date` normalizes separators and then tries six `strptime` formats in
order.  Each format is modelled with CPython's `strptime` field rules:
`%d` is 1-2 digits in 1..31 (the space-padded variant " 1".." 9" is not
modelled; no claim exercises it), `%m` is 1-2 digits in 1..12, `%Y` is
exactly 4 digits, `%y` is exactly 2 digits mapped through the 69-cutoff
century rule, and the resulting day is validated against the month length
(with year at least 1, `datetime.MINYEAR`).  Strings that none of the six
formats accept fall through, in the source, to a permissive
`pandas.to_datetime` call; that external-library fallback is modelled as
returning no result (no claim depends on a string that only pandas parses).
-/

/-- Parse a 1- or 2-digit `strptime` field constrained to `[lo, hi]`. -/
def parseField2 (cs : List Char) (lo hi : Nat) : Option Nat :=
  if cs.length = 1 ∨ cs.length = 2 then
    match digitsToNat? cs with
    | some v => if lo ≤ v ∧ v ≤ hi then some v else none
    | none => none
  else none

/-- Parse a `%Y` field: exactly four digits. -/
def parseY4 (cs : List Char) : Option Nat :=
  if cs.length = 4 then digitsToNat? cs else none

/-- Parse a `%y` field: exactly two digits, 00-68 ↦ 2000-2068,
69-99 ↦ 1969-1999. -/
def parseY2 (cs : List Char) : Option Nat :=
  if cs.length = 2 then
    (digitsToNat? cs).map (fun v => if v ≤ 68 then 2000 + v else 1900 + v)
  else none

/-- Final `datetime` constructor validation: positive year and a day that
exists in the given month. -/
def mkValidDate (y m d : Nat) : Option Date :=
  if 1 ≤ y ∧ 1 ≤ d ∧ d ≤ daysInMonth y m then some ⟨y, m, d⟩ else none

/-- Combine three parsed fields; any failure fails the format. -/
def liftA3D (X Y Z : Option Nat) (f : Nat → Nat → Nat → Option Date) : Option Date :=
  match X, Y, Z with
  | some x, some y, some z => f x y z
  | _, _, _ => none

/-- `%d/%m/%Y`. -/
def fmtDMY4 (a b c : List Char) : Option Date :=
  liftA3D (parseField2 a 1 31) (parseField2 b 1 12) (parseY4 c)
    (fun d m y => mkValidDate y m d)

/-- `%d/%m/%y`. -/
def fmtDMY2 (a b c : List Char) : Option Date :=
  liftA3D (parseField2 a 1 31) (parseField2 b 1 12) (parseY2 c)
    (fun d m y => mkValidDate y m d)

/-- `%m/%d/%Y`. -/
def fmtMDY4 (a b c : List Char) : Option Date :=
  liftA3D (parseField2 a 1 12) (parseField2 b 1 31) (parseY4 c)
    (fun m d y => mkValidDate y m d)

/-- `%m/%d/%y`. -/
def fmtMDY2 (a b c : List Char) : Option Date :=
  liftA3D (parseField2 a 1 12) (parseField2 b 1 31) (parseY2 c)
    (fun m d y => mkValidDate y m d)

/-- `%Y/%m/%d`. -/
def fmtYMD (a b c : List Char) : Option Date :=
  liftA3D (parseY4 a) (parseField2 b 1 12) (parseField2 c 1 31)
    (fun y m d => mkValidDate y m d)

/-- `%Y/%d/%m`. -/
def fmtYDM (a b c : List Char) : Option Date :=
  liftA3D (parseY4 a) (parseField2 b 1 31) (parseField2 c 1 12)
    (fun y d m => mkValidDate y m d)

/-- Try a list of formats in order, returning the first success (the
`for fmt in formats: try ... except: continue` loop). -/
def tryFormats (a b c : List Char) :
    List (List Char → List Char → List Char → Option Date) → Option Date
  | [] => none
  | f :: fs =>
    match f a b c with
    | some dt => some dt
    | none => tryFormats a b c fs

/-- `DateUtils.parse_date`: strip, rewrite `.` and `-` separators to `/`,
then try the six explicit formats in order.  A format with two literal `/`
separators can only match a string with exactly three `/`-separated parts,
so the format attempts are realised on the split parts. -/
def parse_date (s0 : String) : Option Date :=
  match splitOnCharAux '/' (pyReplace (pyReplace (strip s0) "." "/") "-" "/").data with
  | [a, b, c] => tryFormats a b c [fmtDMY4, fmtDMY2, fmtMDY4, fmtMDY2, fmtYMD, fmtYDM]
  | _ => none

/-- `DateUtils.format_mmddyy`: `strftime("%m/%d/%y")`, empty string when the
input fails to parse. -/
def format_mmddyy (s : String) : String :=
  match parse_date s with
  | some dt => pad2 dt.month ++ "/" ++ pad2 dt.day ++ "/" ++ pad2 (dt.year % 100)
  | none => ""

/-! ## ExpiryCodec -/

/-- The `MONTH_CODE` dictionary: standard futures month codes. -/
def MONTH_CODE (m : Nat) : Option String :=
  match m with
  | 1 => some "F" | 2 => some "G" | 3 => some "H" | 4 => some "J"
  | 5 => some "K" | 6 => some "M" | 7 => some "N" | 8 => some "Q"
  | 9 => some "U" | 10 => some "V" | 11 => some "X" | 12 => some "Z"
  | _ => none

/-- `DateUtils.get_futures_code`: `(MONTH_CODE.get(dt.month),
str(dt.year)[-1])`, or `(None, None)` when the date fails to parse.  The
last character of the decimal representation of the year is its last
decimal digit. -/
def get_futures_code (s : String) : Option String × Option String :=
  match parse_date s with
  | none => (none, none)
  | some dt => (MONTH_CODE dt.month, some (toString (dt.year % 10)))

/-- First index of an element in a list (Python `list.index`; only ever used
on lists that contain the element). -/
def idxOf (x : Date) : List Date → Nat
  | [] => 0
  | y :: ys => if y = x then 0 else idxOf x ys + 1

/-- All dates of the given weekday in year `y`, month `m`, in ascending
order: `first_day + timedelta(days=i)` for `i < monthrange` stays inside the
month and is day `i + 1`. -/
def weekdayDatesInMonth (y m targetWd : Nat) : List Date :=
  ((List.range (daysInMonth y m)).map (fun i => Date.mk y m (i + 1))).filter
    (fun d => weekday d == targetWd)

/-- The `suffixes` dictionary lookup `suffixes.get(ordinal, "")`:
1 maps to C, 2 to D, 3 to E, 4 to F, anything else to the empty string. -/
def ordSuffix (n : Nat) : String :=
  match n with
  | 1 => "C" | 2 => "D" | 3 => "E" | 4 => "F" | _ => ""

/-- The body of `get_nifty_weekly_suffix` after the target list has been
enumerated: Python `min(targets, key=...)` is the stable left fold that
replaces the accumulator only on a strictly smaller key, then the
last-occurrence test and the 1-based ordinal lookup. -/
def suffixFromTargets (d : Date) : List Date → String
  | [] => ""
  | t :: ts =>
    let nearest := ts.foldl (fun a b => if dayDist b d < dayDist a d then b else a) t
    if nearest = (t :: ts).getLastD t then ""
    else ordSuffix (idxOf nearest (t :: ts) + 1)

/-- `DateUtils.get_nifty_weekly_suffix`, assembled from the target-weekday
selection, the enumeration of that weekday's dates in the month, and the
nearest/ordinal suffix computation. -/
def get_nifty_weekly_suffix (d : Date) : String :=
  suffixFromTargets d
    (weekdayDatesInMonth d.year d.month (if dateLt d ⟨2025, 9, 1⟩ then 3 else 1))

/-- The weekly-suffix algorithm as the specification words it: among all
dates of the target weekday in the month, the nearest to `d` by absolute day
difference is selected, with the earlier date winning a distance tie (the
list is ascending, so that is the first minimizer); empty suffix when that
date is the last occurrence in the month, otherwise the letter for its
1-based ordinal (1 ↦ C, 2 ↦ D, 3 ↦ E, 4 ↦ F, beyond 4 ↦ empty). -/
def suffixFromTargets_spec (d : Date) : List Date → String
  | [] => ""
  | t :: ts =>
    ((t :: ts).find?
        (fun c => (t :: ts).all (fun u => decide (dayDist c d ≤ dayDist u d)))).elim
      ""
      (fun nearest =>
        if nearest = (t :: ts).getLastD t then ""
        else ordSuffix (idxOf nearest (t :: ts) + 1))

/-- The claimed algorithm in full: same target-weekday cutoff rule and the
specification's nearest-date selection. -/
def weeklySuffix_spec (d : Date) : String :=
  suffixFromTargets_spec d
    (weekdayDatesInMonth d.year d.month (if dateLt d ⟨2025, 9, 1⟩ then 3 else 1))

/-! ## TickerBuilder -/

/-- The constant `INDEX_OPTIONS_MAPPING` dictionary. -/
def INDEX_OPTIONS_MAPPING : List (String × String) :=
  [("NIFTY", "NIFTY"), ("NSEBANK", "NSEBANK"), ("BANKNIFTY", "NSEBANK"),
   ("NMIDSELP", "NMIDSELP"), ("MIDCPNIFTY", "NMIDSELP"),
   ("FINNIFTY", "FINNIFTY"), ("NIFTYFIN", "FINNIFTY")]

/-- Python `dict.get(k, default)` on an association list. -/
def mapGet (m : List (String × String)) (k dflt : String) : String :=
  (List.lookup k m).getD dflt

/-- `TickerBuilder._get_cp_letter`: uppercase and strip, then the Call rule
before the Put rule. -/
def get_cp_letter (option_type : String) : String :=
  let s := strip (upper option_type)
  if s = "C" ∨ s = "CE" ∨ s = "CALL" ∨ s = "CALLS" ∨ startsWithLit s "C" then "C"
  else if s = "P" ∨ s = "PE" ∨ s = "PUT" ∨ s = "PUTS" ∨ startsWithLit s "P"
      ∨ containsSubstr s "PE" then "P"
  else ""

/-- The strike normalization inside `build_option_ticker`:
`str(strike).replace(",", "").replace(r'\.0+$', '')`.  Note the second
`str.replace` is a literal (non-regex) replacement of the five characters
backslash, dot, `0`, `+`, `$`. -/
def normStrike (strike : String) : String :=
  pyReplace (pyReplace strike "," "") "\\.0+$" ""

/-- The `instrument == "OPTSTK"` branch of `build_option_ticker` (lookup in
the user-supplied futures mapping, sentinel "UPDATE" when absent; Python
truthiness of a string is non-emptiness). -/
def buildStockOption (fm : List (String × String))
    (symbol exp_fmt cp strike : String) : String :=
  let ticker := mapGet fm symbol "UPDATE"
  if ticker ≠ "UPDATE" ∧ exp_fmt ≠ "" ∧ cp ≠ "" ∧ strike ≠ "" then
    ticker ++ " IS " ++ exp_fmt ++ " " ++ cp ++ strike ++ " Equity"
  else "UPDATE"

/-- The `else` (index option) branch of `build_option_ticker`: lookup in the
constant index mapping (default empty string), NIFTY gets the weekly suffix
appended when the expiry parses. -/
def buildIndexOption (symbol expiry exp_fmt cp strike : String) : String :=
  let ticker0 := mapGet INDEX_OPTIONS_MAPPING symbol ""
  let ticker :=
    if ticker0 = "NIFTY" then
      match parse_date expiry with
      | some dt => ticker0 ++ get_nifty_weekly_suffix dt
      | none => ticker0
    else ticker0
  if ticker ≠ "" ∧ exp_fmt ≠ "" ∧ cp ≠ "" ∧ strike ≠ "" then
    ticker ++ " " ++ exp_fmt ++ " " ++ cp ++ strike ++ " Index"
  else "UPDATE"

/-- `TickerBuilder.build_option_ticker`. -/
def build_option_ticker (fm : List (String × String))
    (instrument symbol expiry strike option_type : String) : String :=
  let exp_fmt := format_mmddyy expiry
  let cp := get_cp_letter option_type
  let strike2 := normStrike strike
  if instrument = "OPTSTK" then buildStockOption fm symbol exp_fmt cp strike2
  else buildIndexOption symbol expiry exp_fmt cp strike2

/-- `TickerBuilder.build_futures_ticker`. -/
def build_futures_ticker (fm : List (String × String))
    (instrument symbol expiry : String) : String :=
  let codes := get_futures_code expiry
  let ticker := mapGet fm symbol "UPDATE"
  match codes.1, codes.2 with
  | some mcode, some ycode =>
    if instrument = "FUTSTK" then
      if ticker ≠ "UPDATE" ∧ mcode ≠ "" ∧ ycode ≠ "" then
        ticker ++ "=" ++ mcode ++ ycode ++ " IS Equity"
      else "UPDATE"
    else
      if ticker ≠ "UPDATE" ∧ mcode ≠ "" ∧ ycode ≠ "" then
        ticker ++ mcode ++ ycode ++ " Index"
      else "UPDATE"
  | _, _ => "UPDATE"

/-! ## TradeTransformer (`process_trades`) -/

/-- The per-row Strategy computation of the options loop in
`process_trades`: side prefix first, then option-type letter, with an
unconditional "FULO" fallback. -/
def strategyFor (side option_type : String) : String :=
  let s := strip (upper side)
  let t := strip (upper option_type)
  if startsWithLit s "B" ∧ (t = "CE" ∨ t = "C" ∨ startsWithLit t "C") then "FULO"
  else if startsWithLit s "S" ∧ (t = "CE" ∨ t = "C" ∨ startsWithLit t "C") then "FUSH"
  else if startsWithLit s "B" ∧
      (t = "PE" ∨ t = "P" ∨ startsWithLit t "P" ∨ containsSubstr t "PE") then "FUSH"
  else if startsWithLit s "S" ∧
      (t = "PE" ∨ t = "P" ∨ startsWithLit t "P" ∨ containsSubstr t "PE") then "FUSH"
  else "FULO"

/-- The Strategy decision table as the claim words it: side prefix first,
then the option-type classification through `get_cp_letter`; buy+call is
FULO, sell+call and both sides of a put are FUSH, anything else falls back
to FULO. -/
def strategySpec (side option_type : String) : String :=
  let s := strip (upper side)
  if startsWithLit s "B" ∧ get_cp_letter option_type = "C" then "FULO"
  else if startsWithLit s "S" ∧ get_cp_letter option_type = "C" then "FUSH"
  else if startsWithLit s "B" ∧ get_cp_letter option_type = "P" then "FUSH"
  else if startsWithLit s "S" ∧ get_cp_letter option_type = "P" then "FUSH"
  else "FULO"

/-- The regex replacement in `extract_data`:
`str.replace(r'\.0+$', '', regex=True)` removes one trailing run of a dot
followed by one or more zeros at the end of the string. -/
def stripDotZeros (s : String) : String :=
  let rev := s.data.reverse
  let zs := rev.takeWhile (fun c => c == '0')
  if zs.length > 0 ∧ (rev.drop zs.length).headD ' ' == '.' then
    ⟨((rev.drop zs.length).drop 1).reverse⟩
  else s

/-- The input dataframe: a rectangular table with `numCols` columns (pandas
guarantees every row has exactly `numCols` cells; reading past the end of a
row is modelled by the empty string, matching `extract_data`, which
substitutes an empty column whenever a column index is out of range). -/
structure InputTable where
  numCols : Nat
  rows : List (List String)

/-- Read positional column `idx` of a row, as `extract_data` does: an empty
string when the table does not have that many columns. -/
def getField (numCols : Nat) (r : List String) (idx : Nat) : String :=
  if idx < numCols then r.getD idx "" else ""

/-- The options mask: uppercased instrument-type column (index 4) in
{OPTSTK, OPTIDX}. -/
def optPred (r : List String) : Bool :=
  upper (r.getD 4 "") == "OPTSTK" || upper (r.getD 4 "") == "OPTIDX"

/-- The futures mask: uppercased instrument-type column in
{FUTSTK, FUTIDX}. -/
def futPred (r : List String) : Bool :=
  upper (r.getD 4 "") == "FUTSTK" || upper (r.getD 4 "") == "FUTIDX"

/-- Column names of `out_options`, in the exact assignment order of
`process_trades`. -/
def opt_columns : List String :=
  ["RequestType", "ExternalReference", "RevisionNumber", "SecurityIdentifier",
   "ActionCode", "Quantity", "Price", "TradeDate", "SettlementDate",
   "SettlementCurrency", "SettlementRate", "Tax", "Commission", "OtherFee",
   "Memo", "LegalEntity", "Counterparty", "OptionClearer",
   "OptionClearerAccount", "Strategy", "FundStructure", "Trader",
   "TBD1", "TBD2", "TBD3", "TBD4", "TBD5",
   "UserDefined1", "UserDefined2", "UserDefined3", "UserDefined4",
   "UserDefined5"]

/-- Column names of `out_futures`, in the exact assignment order of
`process_trades`. -/
def fut_columns : List String :=
  ["RequestType", "ExternalReference", "RevisionNumber", "ActionCode",
   "SecurityIdentifier", "Quantity", "Price", "TradeDate",
   "SettlementCurrency", "SettlementRate", "Commission", "OtherFee", "Memo",
   "LegalEntity", "Counterparty", "Strategy", "FuturesClearer",
   "FuturesClearerAccount", "FundStructure", "Trader", "Exchange",
   "ProductType", "TBD1", "TBD2", "TBD3", "TBD4", "TBD5",
   "UserDefined1", "UserDefined2", "UserDefined3", "UserDefined4",
   "UserDefined5"]

/-- ActionCode: "B" if the side text uppercased starts with "B", else
"S". -/
def actionCode (side : String) : String :=
  if startsWithLit (upper side) "B" then "B" else "S"

/-- One `out_options` row, cells in `opt_columns` order.  The strike passed
to the ticker builder is the one prepared by `extract_data` (commas removed,
trailing `.0`-style suffix regex-stripped). -/
def optionRow (fm : List (String × String)) (trade_date : String)
    (numCols : Nat) (r : List String) : List String :=
  let instrument := getField numCols r 4
  let symbol := getField numCols r 5
  let expiry := getField numCols r 6
  let strike := stripDotZeros (pyReplace (getField numCols r 8) "," "")
  let option_type := getField numCols r 9
  let side := getField numCols r 10
  ["NEW", "PLEASE FILL", "1",
   build_option_ticker fm instrument symbol expiry strike option_type,
   actionCode side,
   getField numCols r 12, getField numCols r 13,
   trade_date, trade_date, "INR", "1", "", "0", "0", "", "AUM01",
   getField numCols r 3, "GS India Futures", "OOI93890",
   strategyFor side option_type,
   "", "Anurag Gupta", "", "", "", "", "", "", "", "", "", ""]

/-- One `out_futures` row, cells in `fut_columns` order. -/
def futuresRow (fm : List (String × String)) (trade_date : String)
    (numCols : Nat) (r : List String) : List String :=
  let instrument := getField numCols r 4
  let symbol := getField numCols r 5
  let expiry := getField numCols r 6
  let side := getField numCols r 10
  ["NEW", "PLEASE FILL", "1",
   actionCode side,
   build_futures_ticker fm instrument symbol expiry,
   getField numCols r 12, getField numCols r 13,
   trade_date, "INR", "", "", "", "", "AUM01",
   getField numCols r 3,
   (if startsWithLit (upper side) "B" then "FULO" else "FUSH"),
   "GS India Futures", "OOI93890", "", "Anurag Gupta", "", "",
   "", "", "", "", "", "", "", "", "", ""]

/-- `process_trades`: raise when the table has too few columns to read the
instrument-type column (index 4), otherwise filter the two masks and build
the two output tables.  An empty group keeps an empty dataframe (no
columns), since no assignment ever runs for it. -/
def process_trades (t : InputTable) (fm : List (String × String))
    (trade_date : String) :
    Except String ((List String × List (List String)) ×
      (List String × List (List String))) :=
  if 4 ≥ t.numCols then
    Except.error "Input file doesn't have enough columns. Expected at least 14 columns."
  else
    let df_options := t.rows.filter optPred
    let df_futures := t.rows.filter futPred
    Except.ok
      ((if df_options.length > 0 then opt_columns else [],
        df_options.map (optionRow fm trade_date t.numCols)),
       (if df_futures.length > 0 then fut_columns else [],
        df_futures.map (futuresRow fm trade_date t.numCols)))

/-- The end-to-end option row of the specification's scenario. -/
def egOptRow : List String :=
  ["", "", "", "TM1", "OPTSTK", "RELIANCE", "15/01/2025", "", "2500", "CE",
   "BUY", "", "10", "100.5"]

/-- A futures row with a lowercase instrument code. -/
def egFutRow : List String :=
  ["", "", "", "TM1", "futidx", "NIFTY", "30/01/2025", "", "", "",
   "SELL", "", "10", "100.5"]

/-- A row with an unrecognized instrument code (dropped by both masks). -/
def egBadRow : List String :=
  ["", "", "", "TM1", "EQ", "X", "", "", "", "", "", "", "", ""]

/-- A three-row example table: one option, one future, one dropped row. -/
def egTable : InputTable := ⟨14, [egOptRow, egFutRow, egBadRow]⟩

/-! ## Helper lemmas -/

/-- The stable left-fold minimum (Python `min(list, key=f)` starting from
`x`) splits its input as `pre ++ result :: post` where every element of
`pre` has a strictly larger key and the result's key is minimal overall. -/
theorem foldl_min_decomp {α : Type} (f : α → Nat) (l : List α) (x : α) :
    ∃ pre post,
      x :: l = pre ++ (List.foldl (fun a b => if f b < f a then b else a) x l) :: post ∧
      (∀ t ∈ pre, f (List.foldl (fun a b => if f b < f a then b else a) x l) < f t) ∧
      (∀ u ∈ x :: l, f (List.foldl (fun a b => if f b < f a then b else a) x l) ≤ f u) := by
  induction l generalizing x with
  | nil =>
    refine ⟨[], [], rfl, by simp, ?_⟩
    intro u hu
    simp only [List.mem_singleton] at hu
    simp [hu, List.foldl]
  | cons y ys ih =>
    by_cases h : f y < f x
    · have hstep : List.foldl (fun a b => if f b < f a then b else a) x (y :: ys)
          = List.foldl (fun a b => if f b < f a then b else a) y ys := by
        simp [List.foldl_cons, if_pos h]
      obtain ⟨pre, post, hdec, hpre, hmin⟩ := ih y
      refine ⟨x :: pre, post, ?_, ?_, ?_⟩
      · rw [hstep, List.cons_append, hdec]
      · intro t ht
        rcases List.mem_cons.mp ht with hx | hp
        · subst hx
          rw [hstep]
          exact lt_of_le_of_lt (hmin y (List.mem_cons_self _ _)) h
        · rw [hstep]; exact hpre t hp
      · intro u hu
        rcases List.mem_cons.mp hu with hx | hp
        · subst hx
          rw [hstep]
          exact le_of_lt (lt_of_le_of_lt (hmin y (List.mem_cons_self _ _)) h)
        · rw [hstep]; exact hmin u hp
    · have hstep : List.foldl (fun a b => if f b < f a then b else a) x (y :: ys)
          = List.foldl (fun a b => if f b < f a then b else a) x ys := by
        simp [List.foldl_cons, if_neg h]
      obtain ⟨pre, post, hdec, hpre, hmin⟩ := ih x
      cases pre with
      | nil =>
        simp only [List.nil_append] at hdec
        have hrx : List.foldl (fun a b => if f b < f a then b else a) x ys = x := by
          have := congrArg (fun l => l.headD x) hdec
          simpa using this.symm
        refine ⟨[], y :: ys, ?_, by simp, ?_⟩
        · rw [hstep, hrx]; rfl
        · intro u hu
          rw [hstep, hrx]
          rcases List.mem_cons.mp hu with hx | hp
          · simp [hx]
          · rcases List.mem_cons.mp hp with hy | hys
            · subst hy; omega
            · have := hmin u (List.mem_cons.mpr (Or.inr hys))
              rw [hrx] at this; exact this
      | cons a pre2 =>
        have ha : a = x := by
          have := congrArg (fun l => l.headD x) hdec
          simpa using this.symm
        rw [ha] at hdec hpre
        rw [List.cons_append] at hdec
        have hys : ys = pre2 ++
            (List.foldl (fun a b => if f b < f a then b else a) x ys) :: post := by
          injection hdec
        have hfrx : f (List.foldl (fun a b => if f b < f a then b else a) x ys) < f x :=
          hpre x (List.mem_cons_self _ _)
        refine ⟨x :: y :: pre2, post, ?_, ?_, ?_⟩
        · rw [hstep, List.cons_append, List.cons_append, ← hys]
        · intro t ht
          rw [hstep]
          rcases List.mem_cons.mp ht with hx | hp
          · subst hx; exact hfrx
          · rcases List.mem_cons.mp hp with hy | hp2
            · subst hy; omega
            · exact hpre t (List.mem_cons.mpr (Or.inr hp2))
        · intro u hu
          rw [hstep]
          rcases List.mem_cons.mp hu with hx | hp
          · subst hx; exact le_of_lt hfrx
          · rcases List.mem_cons.mp hp with hy | hp2
            · subst hy; omega
            · exact hmin u (List.mem_cons.mpr (Or.inr hp2))

/-- `find?` on a decomposition whose prefix wholly fails the predicate
returns the pivot. -/
theorem find?_append_first {α : Type} (p : α → Bool) (pre : List α) (r : α)
    (post : List α) (hpre : ∀ t ∈ pre, p t = false) (hr : p r = true) :
    (pre ++ r :: post).find? p = some r := by
  induction pre with
  | nil => simp [List.find?_cons, hr]
  | cons a as ih =>
    have ha : p a = false := hpre a (List.mem_cons_self _ _)
    simp only [List.cons_append, List.find?_cons, ha]
    exact ih (fun t ht => hpre t (List.mem_cons.mpr (Or.inr ht)))

/-- The stable left-fold minimum is the first element of the list whose key
is less than or equal to every key in the list. -/
theorem find_first_min {α : Type} (f : α → Nat) (l : List α) (x : α) :
    List.find? (fun c => List.all (x :: l) (fun u => decide (f c ≤ f u))) (x :: l)
      = some (List.foldl (fun a b => if f b < f a then b else a) x l) := by
  obtain ⟨pre, post, hdec, hpre, hmin⟩ := foldl_min_decomp f l x
  have hrmem : List.foldl (fun a b => if f b < f a then b else a) x l ∈ x :: l := by
    rw [hdec]
    exact List.mem_append.mpr (Or.inr (List.mem_cons_self _ _))
  set p : α → Bool := fun c => List.all (x :: l) (fun u => decide (f c ≤ f u)) with hpdef
  have hr : p (List.foldl (fun a b => if f b < f a then b else a) x l) = true := by
    rw [hpdef]
    simp only [List.all_eq_true]
    intro u hu
    exact decide_eq_true (hmin u hu)
  have hpre2 : ∀ t ∈ pre, p t = false := by
    intro t ht
    cases hb : p t with
    | false => rfl
    | true =>
      exfalso
      rw [hpdef] at hb
      have h1 := (List.all_eq_true.mp hb) _ hrmem
      have h2 : f t ≤ f (List.foldl (fun a b => if f b < f a then b else a) x l) :=
        of_decide_eq_true h1
      have h3 := hpre t ht
      omega
  show List.find? p (x :: l) = some (List.foldl (fun a b => if f b < f a then b else a) x l)
  rw [hdec]
  exact find?_append_first p pre _ post hpre2 hr

/-- Specialization of `find_first_min` to the day-distance key used by the
weekly-suffix algorithm. -/
theorem find_first_min_dist (d : Date) (l : List Date) (x : Date) :
    List.find? (fun c => List.all (x :: l) (fun u => decide (dayDist c d ≤ dayDist u d)))
      (x :: l)
      = some (List.foldl (fun a b => if dayDist b d < dayDist a d then b else a) x l) :=
  find_first_min (fun c => dayDist c d) l x

/-! ## C1: weekly suffix -/

/-- C1: for every calendar date, `get_nifty_weekly_suffix` computes exactly
the claimed algorithm (`weeklySuffix_spec`): target weekday Thursday before
2025-09-01 and Tuesday on/after (conjuncts two and three anchor the
Monday=0 weekday convention on a known Thursday, 2025-08-28, and a known
Tuesday, 2025-09-02); among the dates of that weekday in the month, the
nearest by absolute day difference with the earlier date winning ties;
empty suffix when it is the month's last occurrence, otherwise
C/D/E/F for ordinals 1-4 and empty beyond. -/
theorem C1_weekly_suffix_matches_spec :
    (∀ d : Date, get_nifty_weekly_suffix d = weeklySuffix_spec d) ∧
    weekday ⟨2025, 8, 28⟩ = 3 ∧ weekday ⟨2025, 9, 2⟩ = 1 := by
  have tail_eq : ∀ (d : Date) (targets : List Date),
      suffixFromTargets d targets = suffixFromTargets_spec d targets := by
    intro d targets
    cases targets with
    | nil => rfl
    | cons t ts =>
      simp only [suffixFromTargets, suffixFromTargets_spec]
      rw [find_first_min_dist d ts t]
      rfl
  exact ⟨fun d => tail_eq d _, by decide, by decide⟩

/-! ## Parse-field range lemmas and C4 -/

/-- A successfully parsed 1-2 digit field lies within its bounds. -/
theorem parseField2_bounds {cs : List Char} {lo hi v : Nat}
    (h : parseField2 cs lo hi = some v) : lo ≤ v ∧ v ≤ hi := by
  unfold parseField2 at h
  split at h
  · cases hd : digitsToNat? cs with
    | none => rw [hd] at h; exact absurd h (by simp)
    | some w =>
      rw [hd] at h
      split at h
      next v2 heq =>
        split at h
        · next hcond =>
          injection h with h2
          omega
        · exact absurd h (by simp)
      next heq => exact absurd h (by simp)
  · exact absurd h (by simp)

/-- A date built by `mkValidDate` carries exactly the given fields. -/
theorem mkValidDate_fields {y m d : Nat} {dt : Date}
    (h : mkValidDate y m d = some dt) :
    dt.year = y ∧ dt.month = m ∧ dt.day = d := by
  unfold mkValidDate at h
  split at h
  · injection h with h2
    rw [← h2]
    exact ⟨rfl, rfl, rfl⟩
  · exact absurd h (by simp)

/-- Decompose a successful `liftA3D`. -/
theorem liftA3D_some {X Y Z : Option Nat} {f : Nat → Nat → Nat → Option Date}
    {dt : Date} (h : liftA3D X Y Z f = some dt) :
    ∃ x y z, X = some x ∧ Y = some y ∧ Z = some z ∧ f x y z = some dt := by
  unfold liftA3D at h
  cases X with
  | none => cases Y <;> cases Z <;> simp_all
  | some x =>
    cases Y with
    | none => cases Z <;> simp_all
    | some y =>
      cases Z with
      | none => simp_all
      | some z => exact ⟨x, y, z, rfl, rfl, rfl, h⟩

/-- Every date produced by one of the six explicit formats has a month
between 1 and 12 (the `%m` field is always range-checked). -/
theorem fmt_month_bounds :
    ∀ f ∈ [fmtDMY4, fmtDMY2, fmtMDY4, fmtMDY2, fmtYMD, fmtYDM],
      ∀ (a b c : List Char) (dt : Date),
        f a b c = some dt → 1 ≤ dt.month ∧ dt.month ≤ 12 := by
  intro f hf a b c dt h
  simp only [List.mem_cons, List.not_mem_nil, or_false] at hf
  rcases hf with rfl | rfl | rfl | rfl | rfl | rfl
  · obtain ⟨x, y, z, hx, hy, hz, hmk⟩ := liftA3D_some h
    have hb := parseField2_bounds hy
    have hm := (mkValidDate_fields hmk).2.1
    omega
  · obtain ⟨x, y, z, hx, hy, hz, hmk⟩ := liftA3D_some h
    have hb := parseField2_bounds hy
    have hm := (mkValidDate_fields hmk).2.1
    omega
  · obtain ⟨x, y, z, hx, hy, hz, hmk⟩ := liftA3D_some h
    have hb := parseField2_bounds hx
    have hm := (mkValidDate_fields hmk).2.1
    omega
  · obtain ⟨x, y, z, hx, hy, hz, hmk⟩ := liftA3D_some h
    have hb := parseField2_bounds hx
    have hm := (mkValidDate_fields hmk).2.1
    omega
  · obtain ⟨x, y, z, hx, hy, hz, hmk⟩ := liftA3D_some h
    have hb := parseField2_bounds hy
    have hm := (mkValidDate_fields hmk).2.1
    omega
  · obtain ⟨x, y, z, hx, hy, hz, hmk⟩ := liftA3D_some h
    have hb := parseField2_bounds hz
    have hm := (mkValidDate_fields hmk).2.1
    omega

/-- Property propagation through the ordered format attempts. -/
theorem tryFormats_prop (P : Date → Prop)
    (fs : List (List Char → List Char → List Char → Option Date))
    (a b c : List Char)
    (hall : ∀ f ∈ fs, ∀ dt, f a b c = some dt → P dt) :
    ∀ dt, tryFormats a b c fs = some dt → P dt := by
  induction fs with
  | nil => intro dt h; exact absurd h (by simp [tryFormats])
  | cons f fs ih =>
    intro dt h
    unfold tryFormats at h
    split at h
    · next dt2 hf =>
      injection h with h2
      exact h2 ▸ hall f (List.mem_cons_self _ _) dt2 hf
    · exact ih (fun g hg => hall g (List.mem_cons.mpr (Or.inr hg))) dt h

/-- Every successfully parsed date has a month between 1 and 12. -/
theorem parse_date_month {s : String} {dt : Date}
    (h : parse_date s = some dt) : 1 ≤ dt.month ∧ dt.month ≤ 12 := by
  unfold parse_date at h
  split at h
  · exact tryFormats_prop (fun dt => 1 ≤ dt.month ∧ dt.month ≤ 12) _ _ _ _
      (fun f hf => fmt_month_bounds f hf _ _ _) dt h
  · exact absurd h (by simp)

/-- C4: for every date string that parses, `get_futures_code` returns the
12-entry-table month letter of the parsed month (the table being F G H J K M
N Q U V X Z for months 1-12, so month 6 gives "M" and month 1 gives "F", and
the letter exists because every parsed month is between 1 and 12) together
with the last decimal digit of the year; for every date string that fails to
parse it returns `(none, none)`. -/
theorem C4_futures_code :
    (∀ s : String, parse_date s = none → get_futures_code s = (none, none)) ∧
    (∀ (s : String) (dt : Date), parse_date s = some dt →
      get_futures_code s = (MONTH_CODE dt.month, some (toString (dt.year % 10))) ∧
      (MONTH_CODE dt.month).isSome = true) ∧
    MONTH_CODE 1 = some "F" ∧ MONTH_CODE 2 = some "G" ∧ MONTH_CODE 3 = some "H" ∧
    MONTH_CODE 4 = some "J" ∧ MONTH_CODE 5 = some "K" ∧ MONTH_CODE 6 = some "M" ∧
    MONTH_CODE 7 = some "N" ∧ MONTH_CODE 8 = some "Q" ∧ MONTH_CODE 9 = some "U" ∧
    MONTH_CODE 10 = some "V" ∧ MONTH_CODE 11 = some "X" ∧ MONTH_CODE 12 = some "Z" := by
  refine ⟨?_, ?_, rfl, rfl, rfl, rfl, rfl, rfl, rfl, rfl, rfl, rfl, rfl, rfl⟩
  · intro s h
    unfold get_futures_code
    rw [h]
  · intro s dt h
    constructor
    · unfold get_futures_code
      rw [h]
    · obtain ⟨h1, h2⟩ := parse_date_month h
      revert h1 h2
      generalize dt.month = m
      intro h1 h2
      interval_cases m <;> rfl

/-- Witness for C4 at the concrete strings "30/06/2025" (June, so "M", year
digit "5") and "garbage" (unparseable, so `(none, none)`). -/
theorem C4_witness :
    parse_date "30/06/2025" = some ⟨2025, 6, 30⟩ ∧
    get_futures_code "30/06/2025" = (some "M", some "5") ∧
    get_futures_code "garbage" = (none, none) := by
  have h1 : parse_date "30/06/2025" = some ⟨2025, 6, 30⟩ := by decide
  have h3 : parse_date "garbage" = none := by decide
  have h2 := (C4_futures_code.2.1 "30/06/2025" ⟨2025, 6, 30⟩ h1).1
  exact ⟨h1, by simpa using h2, C4_futures_code.1 "garbage" h3⟩

/-! ## Option-type classification lemmas, C5 and C3 -/

/-- The Call rule's full condition is equivalent to "starts with C" (all four
listed literals start with C). -/
theorem callCondFull_iff (t : String) :
    (t = "C" ∨ t = "CE" ∨ t = "CALL" ∨ t = "CALLS" ∨ startsWithLit t "C" = true)
      ↔ startsWithLit t "C" = true := by
  constructor
  · rintro (rfl | rfl | rfl | rfl | h)
    · decide
    · decide
    · decide
    · decide
    · exact h
  · intro h
    exact Or.inr (Or.inr (Or.inr (Or.inr h)))

/-- The Put rule's full condition is equivalent to "starts with P or contains
PE". -/
theorem putCondFull_iff (t : String) :
    (t = "P" ∨ t = "PE" ∨ t = "PUT" ∨ t = "PUTS" ∨ startsWithLit t "P" = true
        ∨ containsSubstr t "PE" = true)
      ↔ (startsWithLit t "P" = true ∨ containsSubstr t "PE" = true) := by
  constructor
  · rintro (rfl | rfl | rfl | rfl | h | h)
    · left; decide
    · left; decide
    · left; decide
    · left; decide
    · exact Or.inl h
    · exact Or.inr h
  · rintro (h | h)
    · exact Or.inr (Or.inr (Or.inr (Or.inr (Or.inl h))))
    · exact Or.inr (Or.inr (Or.inr (Or.inr (Or.inr h))))

/-- The strategy loop's inline call condition is also equivalent to "starts
with C". -/
theorem callCondStrat_iff (t : String) :
    (t = "CE" ∨ t = "C" ∨ startsWithLit t "C" = true) ↔ startsWithLit t "C" = true := by
  constructor
  · rintro (rfl | rfl | h)
    · decide
    · decide
    · exact h
  · intro h
    exact Or.inr (Or.inr h)

/-- The strategy loop's inline put condition is also equivalent to "starts
with P or contains PE". -/
theorem putCondStrat_iff (t : String) :
    (t = "PE" ∨ t = "P" ∨ startsWithLit t "P" = true ∨ containsSubstr t "PE" = true)
      ↔ (startsWithLit t "P" = true ∨ containsSubstr t "PE" = true) := by
  constructor
  · rintro (rfl | rfl | h | h)
    · left; decide
    · left; decide
    · exact Or.inl h
    · exact Or.inr h
  · rintro (h | h)
    · exact Or.inr (Or.inr (Or.inl h))
    · exact Or.inr (Or.inr (Or.inr h))

/-- Case characterization of `get_cp_letter`: C when the normalized text
starts with C, else P when it starts with P or contains PE, else empty. -/
theorem get_cp_letter_cases (s : String) :
    get_cp_letter s =
      (if startsWithLit (strip (upper s)) "C" = true then "C"
       else if startsWithLit (strip (upper s)) "P" = true
           ∨ containsSubstr (strip (upper s)) "PE" = true then "P"
       else "") := by
  unfold get_cp_letter
  by_cases h1 : startsWithLit (strip (upper s)) "C" = true
  · rw [if_pos ((callCondFull_iff _).mpr h1), if_pos h1]
  · rw [if_neg (fun hc => h1 ((callCondFull_iff _).mp hc)), if_neg h1]
    by_cases h2 : startsWithLit (strip (upper s)) "P" = true
        ∨ containsSubstr (strip (upper s)) "PE" = true
    · rw [if_pos ((putCondFull_iff _).mpr h2), if_pos h2]
    · rw [if_neg (fun hp => h2 ((putCondFull_iff _).mp hp)), if_neg h2]

/-- C5: `get_cp_letter` uppercases and trims, then returns "C" for any value
starting with "C" (which covers "C", "CE", "CALL", "CALLS"); "P" for any
value starting with "P" or containing "PE" (covering "P", "PE", "PUT",
"PUTS"); and "" otherwise; the call branch is evaluated first, so "CPE"
(which starts with C and contains PE) yields "C"; in particular "CE" gives
"C", "PE" gives "P" and "XYZ" gives "". -/
theorem C5_classify_option_type :
    (∀ s : String, startsWithLit (strip (upper s)) "C" = true →
      get_cp_letter s = "C") ∧
    (∀ s : String, startsWithLit (strip (upper s)) "C" = false →
      startsWithLit (strip (upper s)) "P" = true
        ∨ containsSubstr (strip (upper s)) "PE" = true →
      get_cp_letter s = "P") ∧
    (∀ s : String, startsWithLit (strip (upper s)) "C" = false →
      startsWithLit (strip (upper s)) "P" = false →
      containsSubstr (strip (upper s)) "PE" = false →
      get_cp_letter s = "") ∧
    get_cp_letter "C" = "C" ∧ get_cp_letter "CE" = "C" ∧
    get_cp_letter "CALL" = "C" ∧ get_cp_letter "CALLS" = "C" ∧
    get_cp_letter "P" = "P" ∧ get_cp_letter "PE" = "P" ∧
    get_cp_letter "PUT" = "P" ∧ get_cp_letter "PUTS" = "P" ∧
    get_cp_letter "XYZ" = "" ∧ get_cp_letter "CPE" = "C" := by
  refine ⟨?_, ?_, ?_, by decide, by decide, by decide, by decide, by decide,
    by decide, by decide, by decide, by decide, by decide⟩
  · intro s h
    rw [get_cp_letter_cases, if_pos h]
  · intro s h1 h2
    rw [get_cp_letter_cases, if_neg (by simp [h1]), if_pos h2]
  · intro s h1 h2 h3
    rw [get_cp_letter_cases, if_neg (by simp [h1]), if_neg (by simp [h2, h3])]

/-- Witness for C5 at concrete inputs: "ce" normalizes to "CE" which starts
with C, and " pe " normalizes to "PE" which starts with P. -/
theorem C5_witness :
    startsWithLit (strip (upper "ce")) "C" = true ∧ get_cp_letter "ce" = "C" ∧
    startsWithLit (strip (upper " pe ")) "P" = true ∧ get_cp_letter " pe " = "P" := by
  refine ⟨by decide, C5_classify_option_type.1 "ce" (by decide), by decide, ?_⟩
  exact C5_classify_option_type.2.1 " pe " (by decide) (Or.inl (by decide))

/-- C3: the Strategy computation of the options loop agrees with the claimed
decision table (side prefix first, then option-type classification): FULO
for buy+call, FUSH for sell+call, buy+put and sell+put, and FULO for every
other side/type combination. -/
theorem C3_strategy_table :
    ∀ side option_type : String,
      strategyFor side option_type = strategySpec side option_type := by
  have iteCP_eq_C : ∀ (c p : Prop) [Decidable c] [Decidable p],
      ((if c then "C" else if p then "P" else "") = "C") ↔ c := by
    intro c p hc2 hp2
    by_cases hc : c <;> by_cases hp : p <;> simp [hc, hp]
  have iteCP_eq_P : ∀ (c p : Prop) [Decidable c] [Decidable p],
      ((if c then "C" else if p then "P" else "") = "P") ↔ (¬c ∧ p) := by
    intro c p hc2 hp2
    by_cases hc : c <;> by_cases hp : p <;> simp [hc, hp]
  have chains_eq : ∀ (b s c p : Prop) [Decidable b] [Decidable s]
      [Decidable c] [Decidable p],
      (if b ∧ c then "FULO" else if s ∧ c then "FUSH"
       else if b ∧ p then "FUSH" else if s ∧ p then "FUSH" else "FULO")
      = (if b ∧ c then "FULO" else if s ∧ c then "FUSH"
         else if b ∧ (¬c ∧ p) then "FUSH" else if s ∧ (¬c ∧ p) then "FUSH"
         else "FULO") := by
    intro b s c p hb2 hs2 hc2 hp2
    by_cases hb : b <;> by_cases hs : s <;> by_cases hc : c <;> by_cases hp : p <;>
      simp [hb, hs, hc, hp]
  intro side ot
  unfold strategyFor strategySpec
  rw [if_congr (and_congr Iff.rfl (callCondStrat_iff _)) rfl rfl,
    if_congr (and_congr Iff.rfl (callCondStrat_iff _)) rfl rfl,
    if_congr (and_congr Iff.rfl (putCondStrat_iff _)) rfl rfl,
    if_congr (and_congr Iff.rfl (putCondStrat_iff _)) rfl rfl,
    get_cp_letter_cases,
    if_congr (and_congr Iff.rfl (iteCP_eq_C _ _)) rfl rfl,
    if_congr (and_congr Iff.rfl (iteCP_eq_C _ _)) rfl rfl,
    if_congr (and_congr Iff.rfl (iteCP_eq_P _ _)) rfl rfl,
    if_congr (and_congr Iff.rfl (iteCP_eq_P _ _)) rfl rfl]
  exact chains_eq _ _ _ _

/-! ## String-length helpers and C6 -/

/-- Appending concatenates the character data, so lengths add. -/
theorem strLength_append (a b : String) : (a ++ b).length = a.length + b.length := by
  cases a with
  | mk da =>
    cases b with
    | mk db => simp [String.length, String.append]

/-- A string whose length is not 6 is not the sentinel "UPDATE". -/
theorem ne_UPDATE_of_length {s : String} (h : s.length ≠ 6) : s ≠ "UPDATE" := by
  intro he
  exact h (by rw [he]; rfl)

/-- A non-empty string has positive length. -/
theorem strLength_pos {s : String} (h : s ≠ "") : 1 ≤ s.length := by
  cases s with
  | mk data =>
    cases data with
    | nil => exact absurd (by decide) h
    | cons c cs => simp [String.length]

/-- C6: `build_futures_ticker` returns "UPDATE" whenever the symbol root is
missing (absent from the mapping or mapped to the sentinel) or the
month/year code is missing (unparseable expiry); otherwise it formats
single-stock futures as root=MY IS Equity and any other instrument as
rootMY Index, never the sentinel; in particular mapping NIFTY to NIFTY with
instrument FUTIDX and expiry 30/01/2025 yields "NIFTYF5 Index". -/
theorem C6_build_futures_ticker :
    (∀ (fm : List (String × String)) (instrument symbol expiry : String),
        mapGet fm symbol "UPDATE" = "UPDATE" →
        build_futures_ticker fm instrument symbol expiry = "UPDATE") ∧
    (∀ (fm : List (String × String)) (instrument symbol expiry : String),
        (get_futures_code expiry).1 = none ∨ (get_futures_code expiry).2 = none →
        build_futures_ticker fm instrument symbol expiry = "UPDATE") ∧
    (∀ (fm : List (String × String)) (instrument symbol expiry root m y : String),
        mapGet fm symbol "UPDATE" = root → root ≠ "UPDATE" →
        get_futures_code expiry = (some m, some y) → m ≠ "" → y ≠ "" →
        build_futures_ticker fm instrument symbol expiry =
          (if instrument = "FUTSTK" then root ++ "=" ++ m ++ y ++ " IS Equity"
           else root ++ m ++ y ++ " Index") ∧
        build_futures_ticker fm instrument symbol expiry ≠ "UPDATE") ∧
    build_futures_ticker [("NIFTY", "NIFTY")] "FUTIDX" "NIFTY" "30/01/2025"
      = "NIFTYF5 Index" := by
  refine ⟨?_, ?_, ?_, by decide⟩
  · intro fm instrument symbol expiry h
    simp only [build_futures_ticker, h]
    split
    · split <;> rw [if_neg (fun hcon => hcon.1 rfl)]
    · rfl
  · intro fm instrument symbol expiry h
    simp only [build_futures_ticker]
    rcases h with h | h <;> rw [h] <;> split <;> simp_all
  · intro fm instrument symbol expiry root m y hroot hne hcodes hm hy
    simp only [build_futures_ticker, hroot, hcodes]
    constructor
    · split
      · rw [if_pos ⟨hne, hm, hy⟩]
      · rw [if_pos ⟨hne, hm, hy⟩]
    · split
      · rw [if_pos ⟨hne, hm, hy⟩]
        apply ne_UPDATE_of_length
        simp only [strLength_append]
        have := strLength_pos hm
        have := strLength_pos hy
        have h6 : (" IS Equity" : String).length = 10 := by decide
        omega
      · rw [if_pos ⟨hne, hm, hy⟩]
        apply ne_UPDATE_of_length
        simp only [strLength_append]
        have := strLength_pos hm
        have := strLength_pos hy
        have h6 : (" Index" : String).length = 6 := by decide
        omega

/-- Witness for C6: a mapped single-stock future with a parseable expiry,
run through the resolved-root branch of the theorem. -/
theorem C6_witness :
    mapGet [("RELIANCE", "RELIANCE")] "RELIANCE" "UPDATE" = "RELIANCE" ∧
    get_futures_code "30/01/2025" = (some "F", some "5") ∧
    build_futures_ticker [("RELIANCE", "RELIANCE")] "FUTSTK" "RELIANCE" "30/01/2025"
      = "RELIANCE=F5 IS Equity" := by
  refine ⟨by decide, by decide, ?_⟩
  have h := (C6_build_futures_ticker.2.2.1 [("RELIANCE", "RELIANCE")] "FUTSTK"
    "RELIANCE" "30/01/2025" "RELIANCE" "F" "5"
    (by decide) (by decide) (by decide) (by decide) (by decide)).1
  rw [h]
  decide

/-! ## C2: option-ticker sentinel behaviour -/

/-- Every value of the constant index mapping is one of the four index
roots. -/
theorem lookup_INDEX_values {sym root : String}
    (h : List.lookup sym INDEX_OPTIONS_MAPPING = some root) :
    root = "NIFTY" ∨ root = "NSEBANK" ∨ root = "NMIDSELP" ∨ root = "FINNIFTY" := by
  simp only [INDEX_OPTIONS_MAPPING, List.lookup] at h
  repeat' split at h
  all_goals first
    | exact Option.noConfusion h
    | exact Option.noConfusion h (fun h2 => by subst h2; decide)

/-- C2 counterexample: with mapping {TCS ↦ TCS}, the fully specified index
option row (OPTIDX, TCS) has its symbol present in the symbol mapping yet
yields "UPDATE" (the index branch consults only the built-in index mapping);
and with an empty symbol mapping the row (OPTIDX, NIFTY) has its symbol
absent from the symbol mapping yet yields a real ticker, not "UPDATE". -/
theorem C2_counterexample :
    List.lookup "TCS" [("TCS", "TCS")] = some "TCS" ∧
    format_mmddyy "15/01/2025" = "01/15/25" ∧
    get_cp_letter "CE" = "C" ∧ normStrike "2500" = "2500" ∧
    build_option_ticker [("TCS", "TCS")] "OPTIDX" "TCS" "15/01/2025" "2500" "CE"
      = "UPDATE" ∧
    List.lookup "NIFTY" ([] : List (String × String)) = none ∧
    build_option_ticker [] "OPTIDX" "NIFTY" "15/01/2025" "2500" "CE"
      = "NIFTYE 01/15/25 C2500 Index" ∧
    ¬ build_option_ticker [] "OPTIDX" "NIFTY" "15/01/2025" "2500" "CE" = "UPDATE" := by
  refine ⟨by decide, by decide, by decide, by decide, by decide, by decide,
    by decide, by decide⟩

/-- C2 amended: for single-stock option rows ("OPTSTK") the symbol mapping
decides the sentinel: a symbol mapped to a non-sentinel root with all of
expiry, option type and strike resolving non-empty never yields "UPDATE",
and an absent symbol always yields "UPDATE"; for every other instrument code
the built-in index mapping plays that role: an absent symbol yields
"UPDATE", and a present symbol with fully resolved components never yields
"UPDATE".  (Totality is by construction: the embedded function returns a
string on every path, mirroring the exception-free Python code.) -/
theorem C2_amended :
    (∀ (fm : List (String × String)) (symbol expiry strike option_type root : String),
        List.lookup symbol fm = some root → root ≠ "UPDATE" →
        format_mmddyy expiry ≠ "" → get_cp_letter option_type ≠ "" →
        normStrike strike ≠ "" →
        build_option_ticker fm "OPTSTK" symbol expiry strike option_type ≠ "UPDATE") ∧
    (∀ (fm : List (String × String)) (symbol expiry strike option_type : String),
        List.lookup symbol fm = none →
        build_option_ticker fm "OPTSTK" symbol expiry strike option_type = "UPDATE") ∧
    (∀ (fm : List (String × String)) (instrument symbol expiry strike option_type : String),
        instrument ≠ "OPTSTK" →
        List.lookup symbol INDEX_OPTIONS_MAPPING = none →
        build_option_ticker fm instrument symbol expiry strike option_type = "UPDATE") ∧
    (∀ (fm : List (String × String))
        (instrument symbol expiry strike option_type root : String),
        instrument ≠ "OPTSTK" →
        List.lookup symbol INDEX_OPTIONS_MAPPING = some root →
        format_mmddyy expiry ≠ "" → get_cp_letter option_type ≠ "" →
        normStrike strike ≠ "" →
        build_option_ticker fm instrument symbol expiry strike option_type
          ≠ "UPDATE") := by
  refine ⟨?_, ?_, ?_, ?_⟩
  · intro fm symbol expiry strike option_type root hlook hroot hexp hcp hst
    simp only [build_option_ticker, reduceIte, buildStockOption, mapGet, hlook,
      Option.getD_some]
    rw [if_pos ⟨hroot, hexp, hcp, hst⟩]
    apply ne_UPDATE_of_length
    simp only [strLength_append]
    have h1 : (" IS " : String).length = 4 := by decide
    have h2 : (" " : String).length = 1 := by decide
    have h3 : (" Equity" : String).length = 7 := by decide
    omega
  · intro fm symbol expiry strike option_type hlook
    simp only [build_option_ticker, reduceIte, buildStockOption, mapGet, hlook,
      Option.getD_none]
    rw [if_neg (fun hcon => hcon.1 rfl)]
  · intro fm instrument symbol expiry strike option_type hinstr hlook
    simp only [build_option_ticker]
    rw [if_neg hinstr]
    simp only [buildIndexOption, mapGet, hlook, Option.getD_none]
    rw [if_neg (by decide : ¬("" : String) = "NIFTY"),
      if_neg (fun hcon => hcon.1 rfl)]
  · intro fm instrument symbol expiry strike option_type root hinstr hlook hexp hcp hst
    simp only [build_option_ticker]
    rw [if_neg hinstr]
    simp only [buildIndexOption, mapGet, hlook, Option.getD_some]
    have hne : (if root = "NIFTY" then
        match parse_date expiry with
        | some dt => root ++ get_nifty_weekly_suffix dt
        | none => root
      else root) ≠ "" := by
      rcases lookup_INDEX_values hlook with rfl | rfl | rfl | rfl
      · rw [if_pos rfl]
        cases hp : parse_date expiry with
        | none => decide
        | some dt =>
          intro hcon
          have := congrArg String.length hcon
          rw [strLength_append] at this
          have h5 : ("NIFTY" : String).length = 5 := by decide
          have h0 : ("" : String).length = 0 := by decide
          omega
      · rw [if_neg (by decide)]; decide
      · rw [if_neg (by decide)]; decide
      · rw [if_neg (by decide)]; decide
    rw [if_pos ⟨hne, hexp, hcp, hst⟩]
    apply ne_UPDATE_of_length
    simp only [strLength_append]
    have h2 : (" " : String).length = 1 := by decide
    have h3 : (" Index" : String).length = 6 := by decide
    omega

/-- Witness for C2's amended statement: the mapped, fully specified RELIANCE
stock-option row is not "UPDATE"; the unmapped symbol "XYZ" is. -/
theorem C2_witness :
    List.lookup "RELIANCE" [("RELIANCE", "RELIANCE")] = some "RELIANCE" ∧
    ¬ build_option_ticker [("RELIANCE", "RELIANCE")] "OPTSTK" "RELIANCE"
        "15/01/2025" "2500" "CE" = "UPDATE" ∧
    build_option_ticker [("RELIANCE", "RELIANCE")] "OPTSTK" "XYZ"
        "15/01/2025" "2500" "CE" = "UPDATE" := by
  refine ⟨by decide, ?_, ?_⟩
  · exact C2_amended.1 [("RELIANCE", "RELIANCE")] "RELIANCE" "15/01/2025" "2500"
      "CE" "RELIANCE" (by decide) (by decide) (by decide) (by decide) (by decide)
  · exact C2_amended.2.1 [("RELIANCE", "RELIANCE")] "XYZ" "15/01/2025" "2500"
      "CE" (by decide)

/-! ## C7 and C8: row partition and the structural error -/

/-- Counting a list split by two mutually exclusive predicates together with
the leftover rows. -/
theorem filter_partition_length {α : Type} (p q : α → Bool)
    (hpq : ∀ x, ¬(p x = true ∧ q x = true)) (l : List α) :
    (l.filter p).length + (l.filter q).length +
      (l.filter (fun x => !p x && !q x)).length = l.length := by
  induction l with
  | nil => rfl
  | cons x xs ih =>
    cases hp : p x <;> cases hq : q x
    · simp [List.filter_cons, hp, hq]
      omega
    · simp [List.filter_cons, hp, hq]
      omega
    · simp [List.filter_cons, hp, hq]
      omega
    · exact absurd ⟨hp, hq⟩ (hpq x)

/-- The two classification masks are mutually exclusive: no instrument code
uppercases to both an option code and a futures code. -/
theorem masks_exclusive : ∀ r : List String, ¬(optPred r = true ∧ futPred r = true) := by
  intro r hcon
  obtain ⟨h1, h2⟩ := hcon
  simp only [optPred, futPred, Bool.or_eq_true, beq_iff_eq] at h1 h2
  rcases h1 with h1 | h1 <;> rcases h2 with h2 | h2 <;> rw [h1] at h2 <;>
    exact absurd h2 (by decide)

/-- C7: a successful `process_trades` run maps each mask's filtered rows
one-to-one and in order onto the corresponding output table, the two output
row counts plus the dropped count equal the input row count, and the masks
are mutually exclusive, so every row lands in exactly one of options,
futures or dropped. -/
theorem C7_partition :
    ∀ (t : InputTable) (fm : List (String × String)) (td : String)
      (out : (List String × List (List String)) × (List String × List (List String))),
      process_trades t fm td = Except.ok out →
      out.1.2 = (t.rows.filter optPred).map (optionRow fm td t.numCols) ∧
      out.2.2 = (t.rows.filter futPred).map (futuresRow fm td t.numCols) ∧
      out.1.2.length + out.2.2.length +
        (t.rows.filter (fun r => !optPred r && !futPred r)).length = t.rows.length ∧
      (∀ r ∈ t.rows, ¬(optPred r = true ∧ futPred r = true)) := by
  intro t fm td out h
  unfold process_trades at h
  split at h
  · exact absurd h (by simp)
  · injection h with h2
    subst h2
    refine ⟨rfl, rfl, ?_, fun r hr => masks_exclusive r⟩
    simp only [List.length_map]
    exact filter_partition_length optPred futPred masks_exclusive t.rows

/-- Witness for C7 on the three-row example table: one option row, one
futures row, one dropped row. -/
theorem C7_witness :
    ([optionRow [] "20250101" 14 egOptRow] : List (List String)).length +
    ([futuresRow [] "20250101" 14 egFutRow] : List (List String)).length +
    (egTable.rows.filter (fun r => !optPred r && !futPred r)).length
      = egTable.rows.length :=
  (C7_partition egTable [] "20250101"
    ((opt_columns, [optionRow [] "20250101" 14 egOptRow]),
     (fut_columns, [futuresRow [] "20250101" 14 egFutRow])) rfl).2.2.1

/-- C8: `process_trades` raises its structural error exactly when the table
has fewer than 5 columns (too few to read the instrument-type column at
index 4), even though the documented interface minimum is 14 columns; a
table with at least 5 columns always produces the two outputs. -/
theorem C8_structural_error :
    (∀ (t : InputTable) (fm : List (String × String)) (td : String),
      (∃ e, process_trades t fm td = Except.error e) ↔ t.numCols < 5) ∧
    (∀ (t : InputTable) (fm : List (String × String)) (td : String),
      5 ≤ t.numCols → ∃ out, process_trades t fm td = Except.ok out) := by
  constructor
  · intro t fm td
    constructor
    · rintro ⟨e, he⟩
      unfold process_trades at he
      split at he
      · next hcols => omega
      · exact absurd he (by simp)
    · intro h
      cases hres : process_trades t fm td with
      | error e => exact ⟨e, rfl⟩
      | ok out =>
        exfalso
        unfold process_trades at hres
        rw [if_pos (by omega)] at hres
        exact absurd hres (by simp)
  · intro t fm td h
    cases hres : process_trades t fm td with
    | error e =>
      exfalso
      unfold process_trades at hres
      rw [if_neg (by omega)] at hres
      exact absurd hres (by simp)
    | ok out => exact ⟨out, rfl⟩

/-- Witness for C8: a 4-column table fails, a 14-column empty table
succeeds. -/
theorem C8_witness :
    (process_trades ⟨4, []⟩ [] "x").isOk = false ∧
    (process_trades ⟨14, []⟩ [] "x").isOk = true := by
  obtain ⟨e, he⟩ := (C8_structural_error.1 ⟨4, []⟩ [] "x").mpr (by decide)
  obtain ⟨out, ho⟩ := C8_structural_error.2 ⟨14, []⟩ [] "x" (by decide)
  constructor
  · rw [he]; rfl
  · rw [ho]; rfl

/-! ## C9: output schemas -/

/-- C9 counterexample: a run with one option row produces an options table
whose column list is the assignment-order schema, and that schema has 32
columns, not the claimed 30 (the claim's own enumeration lists 32 names). -/
theorem C9_counterexample :
    process_trades egTable [("RELIANCE", "RELIANCE")] "20250110" =
      Except.ok
        ((opt_columns,
          [optionRow [("RELIANCE", "RELIANCE")] "20250110" 14 egOptRow]),
         (fut_columns,
          [futuresRow [("RELIANCE", "RELIANCE")] "20250110" 14 egFutRow])) ∧
    opt_columns.length = 32 ∧ ¬ opt_columns.length = 30 :=
  ⟨rfl, by decide, by decide⟩

/-- C9 amended: when the options group is non-empty its table has exactly 32
columns, namely (in this exact order) RequestType, ExternalReference,
RevisionNumber, SecurityIdentifier, ActionCode, Quantity, Price, TradeDate,
SettlementDate, SettlementCurrency, SettlementRate, Tax, Commission,
OtherFee, Memo, LegalEntity, Counterparty, OptionClearer,
OptionClearerAccount, Strategy, FundStructure, Trader, TBD1-5,
UserDefined1-5; the futures table has exactly 32 columns with the analogous
fields plus FuturesClearer, FuturesClearerAccount, Exchange, ProductType in
place of the option-specific ones; and every emitted row has exactly as many
cells as its schema. -/
theorem C9_amended :
    (∀ (t : InputTable) (fm : List (String × String)) (td : String)
        (out : (List String × List (List String)) ×
          (List String × List (List String))),
        process_trades t fm td = Except.ok out →
        (out.1.2 ≠ [] → out.1.1 =
          ["RequestType", "ExternalReference", "RevisionNumber",
           "SecurityIdentifier", "ActionCode", "Quantity", "Price",
           "TradeDate", "SettlementDate", "SettlementCurrency",
           "SettlementRate", "Tax", "Commission", "OtherFee", "Memo",
           "LegalEntity", "Counterparty", "OptionClearer",
           "OptionClearerAccount", "Strategy", "FundStructure", "Trader",
           "TBD1", "TBD2", "TBD3", "TBD4", "TBD5", "UserDefined1",
           "UserDefined2", "UserDefined3", "UserDefined4", "UserDefined5"]) ∧
        (out.2.2 ≠ [] → out.2.1 =
          ["RequestType", "ExternalReference", "RevisionNumber", "ActionCode",
           "SecurityIdentifier", "Quantity", "Price", "TradeDate",
           "SettlementCurrency", "SettlementRate", "Commission", "OtherFee",
           "Memo", "LegalEntity", "Counterparty", "Strategy", "FuturesClearer",
           "FuturesClearerAccount", "FundStructure", "Trader", "Exchange",
           "ProductType", "TBD1", "TBD2", "TBD3", "TBD4", "TBD5",
           "UserDefined1", "UserDefined2", "UserDefined3", "UserDefined4",
           "UserDefined5"]) ∧
        (∀ r ∈ out.1.2, r.length = 32) ∧ (∀ r ∈ out.2.2, r.length = 32)) ∧
    opt_columns.length = 32 ∧ fut_columns.length = 32 := by
  refine ⟨?_, by decide, by decide⟩
  intro t fm td out h
  unfold process_trades at h
  split at h
  · exact absurd h (by simp)
  · injection h with h2
    subst h2
    refine ⟨?_, ?_, ?_, ?_⟩
    · intro hne
      simp only [ne_eq, List.map_eq_nil_iff] at hne
      have hlen : 0 < (t.rows.filter optPred).length :=
        List.length_pos.mpr hne
      rw [if_pos hlen]
      rfl
    · intro hne
      simp only [ne_eq, List.map_eq_nil_iff] at hne
      have hlen : 0 < (t.rows.filter futPred).length :=
        List.length_pos.mpr hne
      rw [if_pos hlen]
      rfl
    · intro r hr
      obtain ⟨r0, hr0, hback⟩ := List.mem_map.mp hr
      rw [← hback]
      rfl
    · intro r hr
      obtain ⟨r0, hr0, hback⟩ := List.mem_map.mp hr
      rw [← hback]
      rfl

/-- Witness for C9's amended statement on the concrete example table. -/
theorem C9_witness :
    ([optionRow [("RELIANCE", "RELIANCE")] "20250110" 14 egOptRow] :
        List (List String)) ≠ [] ∧
    opt_columns =
      ["RequestType", "ExternalReference", "RevisionNumber",
       "SecurityIdentifier", "ActionCode", "Quantity", "Price", "TradeDate",
       "SettlementDate", "SettlementCurrency", "SettlementRate", "Tax",
       "Commission", "OtherFee", "Memo", "LegalEntity", "Counterparty",
       "OptionClearer", "OptionClearerAccount", "Strategy", "FundStructure",
       "Trader", "TBD1", "TBD2", "TBD3", "TBD4", "TBD5", "UserDefined1",
       "UserDefined2", "UserDefined3", "UserDefined4", "UserDefined5"] := by
  have h := (C9_amended.1 egTable [("RELIANCE", "RELIANCE")] "20250110"
      ((opt_columns,
        [optionRow [("RELIANCE", "RELIANCE")] "20250110" 14 egOptRow]),
       (fut_columns,
        [futuresRow [("RELIANCE", "RELIANCE")] "20250110" 14 egFutRow]))
      rfl).1
  exact ⟨by simp, h (by simp)⟩

/-! ## C10: case sensitivity of classification versus ticker building -/

/-- Lookup misses when no key equals the probe. -/
theorem lookup_none_of_ne {fm : List (String × String)} {symbol : String}
    (h : ∀ p ∈ fm, p.1 ≠ symbol) : List.lookup symbol fm = none := by
  induction fm with
  | nil => rfl
  | cons p ps ih =>
    cases hb : symbol == p.1 with
    | true =>
      exact absurd (beq_iff_eq.mp hb).symm (h p (List.mem_cons_self _ _))
    | false =>
      simp only [List.lookup, hb]
      exact ih (fun q hq => h q (List.mem_cons.mpr (Or.inr hq)))

/-- Every key of the constant index mapping is uppercase. -/
theorem INDEX_keys_upper : ∀ p ∈ INDEX_OPTIONS_MAPPING, upper p.1 = p.1 := by decide

/-- A mapping whose keys are all uppercase cannot contain a symbol that is
not its own uppercasing. -/
theorem lookup_none_of_case {fm : List (String × String)} {symbol : String}
    (hkeys : ∀ p ∈ fm, upper p.1 = p.1) (hsym : upper symbol ≠ symbol) :
    List.lookup symbol fm = none := by
  apply lookup_none_of_ne
  intro p hp he
  exact hsym (by rw [← he]; exact hkeys p hp)

/-- C10: classification uppercases the instrument-type column but ticker
building does not normalize case at all: a row whose instrument code merely
uppercases to OPTSTK/OPTIDX is classified into the options table, yet any
instrument string different from the exact "OPTSTK" is built through the
index-option branch; and a symbol that differs in case from the uppercase
keys of the relevant mapping misses the lookup, so the ticker is the
sentinel "UPDATE". -/
theorem C10_case_sensitivity :
    (∀ r : List String,
        upper (r.getD 4 "") = "OPTSTK" ∨ upper (r.getD 4 "") = "OPTIDX" →
        optPred r = true) ∧
    (∀ (fm : List (String × String))
        (instrument symbol expiry strike option_type : String),
        instrument ≠ "OPTSTK" →
        build_option_ticker fm instrument symbol expiry strike option_type =
          buildIndexOption symbol expiry (format_mmddyy expiry)
            (get_cp_letter option_type) (normStrike strike)) ∧
    (∀ (fm : List (String × String)) (symbol expiry strike option_type : String),
        (∀ p ∈ fm, upper p.1 = p.1) → upper symbol ≠ symbol →
        List.lookup symbol fm = none ∧
        build_option_ticker fm "OPTSTK" symbol expiry strike option_type
          = "UPDATE") ∧
    (∀ (fm : List (String × String))
        (instrument symbol expiry strike option_type : String),
        instrument ≠ "OPTSTK" → upper symbol ≠ symbol →
        build_option_ticker fm instrument symbol expiry strike option_type
          = "UPDATE") := by
  refine ⟨?_, ?_, ?_, ?_⟩
  · intro r h
    simp only [optPred, Bool.or_eq_true, beq_iff_eq]
    exact h
  · intro fm instrument symbol expiry strike option_type hinstr
    simp only [build_option_ticker]
    rw [if_neg hinstr]
  · intro fm symbol expiry strike option_type hkeys hsym
    have hlook := lookup_none_of_case hkeys hsym
    refine ⟨hlook, ?_⟩
    simp only [build_option_ticker, reduceIte, buildStockOption, mapGet, hlook,
      Option.getD_none]
    rw [if_neg (fun hcon => hcon.1 rfl)]
  · intro fm instrument symbol expiry strike option_type hinstr hsym
    have hlook := lookup_none_of_case INDEX_keys_upper hsym
    simp only [build_option_ticker]
    rw [if_neg hinstr]
    simp only [buildIndexOption, mapGet, hlook, Option.getD_none]
    rw [if_neg (by decide : ¬("" : String) = "NIFTY"),
      if_neg (fun hcon => hcon.1 rfl)]

/-- Witness for C10: a lowercase "optstk" row is classified as an option but
built through the index branch, and lowercase symbols miss the uppercase
mappings. -/
theorem C10_witness :
    upper "optstk" = "OPTSTK" ∧
    optPred ["", "", "", "", "optstk"] = true ∧
    build_option_ticker [("RELIANCE", "RELIANCE")] "optstk" "RELIANCE"
        "15/01/2025" "2500" "CE"
      = buildIndexOption "RELIANCE" "15/01/2025" (format_mmddyy "15/01/2025")
          (get_cp_letter "CE") (normStrike "2500") ∧
    build_option_ticker [("RELIANCE", "RELIANCE")] "OPTSTK" "reliance"
        "15/01/2025" "2500" "CE" = "UPDATE" ∧
    build_option_ticker [("RELIANCE", "RELIANCE")] "optidx" "nifty"
        "15/01/2025" "2500" "CE" = "UPDATE" := by
  refine ⟨by decide,
    C10_case_sensitivity.1 ["", "", "", "", "optstk"] (Or.inl (by decide)),
    C10_case_sensitivity.2.1 [("RELIANCE", "RELIANCE")] "optstk" "RELIANCE"
      "15/01/2025" "2500" "CE" (by decide),
    (C10_case_sensitivity.2.2.1 [("RELIANCE", "RELIANCE")] "reliance"
      "15/01/2025" "2500" "CE" (by decide) (by decide)).2,
    C10_case_sensitivity.2.2.2 [("RELIANCE", "RELIANCE")] "optidx" "nifty"
      "15/01/2025" "2500" "CE" (by decide) (by decide)⟩
